import Mathlib

/-
Verification of the falafel protoc-plugin planning core against its
natural-language specification.

Shallow embedding conventions:
* Go strings are modelled as `List Char` (`GoStr`); string literals enter
  through `gs`.
* Go `map[string]string` is modelled as an insertion-ordered association
  list with overwrite-on-insert (`mapInsert`), indexing with the zero
  value for missing keys (`mapGet`), and value iteration in insertion
  order (`mapValues`).  Go map iteration order is unspecified; the model
  fixes it to insertion order.
* `log.Fatal` is modelled as `Except.error` carrying the message; the
  sequential fatal-abort behaviour of the generator is the usual `Except`
  short-circuiting.
* Template executions are modelled as `Instr` values carrying exactly the
  parameter records the source fills in; created output files are
  `Artifact`s (name plus ordered instruction list).
-/

abbrev GoStr := List Char

def gs (s : String) : GoStr := s.toList

/-- `strings.Split` with a single-character separator, by characters. -/
def splitChar (sep : Char) : List Char → List (List Char)
  | [] => [[]]
  | c :: rest =>
    if c = sep then [] :: splitChar sep rest
    else
      match splitChar sep rest with
      | [] => [[c]]
      | t :: ts => (c :: t) :: ts

/-- Go map assignment `m[k] = v`: overwrite if present, else append. -/
def mapInsert (m : List (GoStr × GoStr)) (k v : GoStr) : List (GoStr × GoStr) :=
  match m with
  | [] => [(k, v)]
  | (k2, v2) :: rest => if k2 = k then (k, v) :: rest else (k2, v2) :: mapInsert rest k v

/-- Go map indexing `m[k]`: the zero value `""` when the key is absent. -/
def mapGet (m : List (GoStr × GoStr)) (k : GoStr) : GoStr :=
  match m with
  | [] => []
  | (k2, v) :: rest => if k2 = k then v else mapGet rest k

/-- Key lookup distinguishing an absent key from a key mapped to `""`. -/
def lookupKey (m : List (GoStr × GoStr)) (k : GoStr) : Option GoStr :=
  match m with
  | [] => none
  | (k2, v) :: rest => if k2 = k then some v else lookupKey rest k

/-- The values of the map, in insertion order (`for _, v := range m`). -/
def mapValues (m : List (GoStr × GoStr)) : List GoStr := m.map Prod.snd

/-- The Go loop `for j := range s, if s[j] == t, i = j; break`, as the
index of the first occurrence of `t`. -/
def findCharIdx (t : Char) : List Char → Option Nat
  | [] => none
  | c :: rest => if c = t then some 0 else (findCharIdx t rest).map (· + 1)

/-- One token of the parameter string: split at the first `=`
(`strings.Index(p, "=")`); a token without `=` keeps an empty value. -/
def kvOfToken (p : GoStr) : GoStr × GoStr :=
  match findCharIdx '=' p with
  | none => (p, [])
  | some i => (p.take i, p.drop (i + 1))

/-- Shared body of `parseParams` and `split` in main.go: split the
parameter string on `sep` and insert each token's key/value pair. -/
def goKVSplit (parameter : GoStr) (sep : Char) : List (GoStr × GoStr) :=
  if parameter = [] then []
  else (splitChar sep parameter).foldl
    (fun m p => mapInsert m (kvOfToken p).1 (kvOfToken p).2) []

/-- `parseParams` from main.go (comma-separated `key[=value]` tokens). -/
def parseParams (parameter : GoStr) : List (GoStr × GoStr) := goKVSplit parameter ','

/-- `split` from main.go (same token grammar, caller-chosen separator). -/
def split (parameter : GoStr) (c : Char) : List (GoStr × GoStr) := goKVSplit parameter c

/-- The Go pattern `i := 0; for j := range c { if c[j] == '\n' { i = j; break } }`:
`i` stays `0` when no newline occurs. -/
def firstNlIdx (c : GoStr) : Nat := (findCharIdx '\n' c).getD 0

/-- Same pattern for the first space. -/
def firstSpIdx (c : GoStr) : Nat := (findCharIdx ' ' c).getD 0

/-- `strings.Replace(c, "\n", "\n// ", -1)`: the pattern is a single
character, so each newline becomes newline-slash-slash-space. -/
def replaceNl : GoStr → GoStr
  | [] => []
  | c :: rest =>
    if c = '\n' then '\n' :: '/' :: '/' :: ' ' :: replaceNl rest
    else c :: replaceNl rest

/-- `strings.Replace(c, " \n//", "\n//", -1)`: leftmost, non-overlapping
single pass; after a match the scan resumes after the matched text. -/
def trimSpNl : GoStr → GoStr
  | ' ' :: '\n' :: '/' :: '/' :: rest => '\n' :: '/' :: '/' :: trimSpNl rest
  | c :: rest => c :: trimSpNl rest
  | [] => []

/-- The two replacement passes of the comment extractor, in source order. -/
def reformat (c : GoStr) : GoStr := trimSpNl (replaceNl c)

/-- Step 1 of the extractor: `c = c[i+1:]` for `i` the first-newline index
(or `0` when there is none). -/
def stepOne (c : GoStr) : GoStr := c.drop (firstNlIdx c + 1)

/-- One iteration of the `extractComments` loop on a raw leading-comment
block: empty blocks are skipped up front (`loc.LeadingComments == ""`),
then step 1, method-name extraction, reformatting, the length-4 guard,
and the final `"// " + c[:len(c)-4]`. -/
def processBlock (c : GoStr) : Option (GoStr × GoStr) :=
  if c = [] then none
  else
    let c1 := stepOne c
    let method := c1.take (firstSpIdx c1)
    let c2 := reformat c1
    if c2.length < 4 then none
    else some (method, '/' :: '/' :: ' ' :: c2.take (c2.length - 4))

/-- `extractComments`: fold the per-block processing into the godoc map. -/
def extractComments (blocks : List GoStr) : List (GoStr × GoStr) :=
  blocks.foldl
    (fun m c =>
      match processBlock c with
      | none => m
      | some kv => mapInsert m kv.1 kv.2) []

def toolName : GoStr := gs "falafel"

def version : GoStr := gs "0.9.1"

/-- `fmt.Sprintf("%s %s", toolName, version)`. -/
def versionString : GoStr := toolName ++ ' ' :: version

structure MethodSchema where
  goName : GoStr
  inputGoName : GoStr
  inputImportPath : GoStr
  clientStreaming : Bool
  serverStreaming : Bool
  deriving DecidableEq

structure ServiceSchema where
  goName : GoStr
  methods : List MethodSchema
  deriving DecidableEq

/-- One `protogen.File`: its proto name, the `Generate` flag, its raw
leading-comment blocks, and its services. -/
structure FileSchema where
  protoName : GoStr
  generate : Bool
  comments : List GoStr
  services : List ServiceSchema
  deriving DecidableEq

structure HeaderParams where
  toolNm : GoStr
  fileName : GoStr
  pkg : GoStr
  targetPkg : GoStr
  buildTags : GoStr
  deriving DecidableEq

structure ServiceParams where
  serviceName : GoStr
  targetName : GoStr
  listener : GoStr
  deriving DecidableEq

structure RpcParams where
  serviceName : GoStr
  methodName : GoStr
  requestType : GoStr
  comment : GoStr
  apiPref : GoStr
  deriving DecidableEq

structure JsRpcParams where
  methodName : GoStr
  serviceName : GoStr
  requestType : GoStr
  responseStreaming : Bool
  deriving DecidableEq

structure JsHeaderParams where
  toolNm : GoStr
  fileName : GoStr
  serviceName : GoStr
  pkg : GoStr
  manualImport : GoStr
  buildTag : GoStr
  methods : List JsRpcParams
  deriving DecidableEq

structure MemRpcParams where
  toolNm : GoStr
  pkg : GoStr
  deriving DecidableEq

structure ListenersParams where
  toolNm : GoStr
  pkg : GoStr
  listeners : List GoStr
  deriving DecidableEq

/-- One template execution: the template chosen plus the parameter record
handed to it. -/
inductive Instr where
  | header (p : HeaderParams)
  | service (p : ServiceParams)
  | sync (p : RpcParams)
  | readStream (p : RpcParams)
  | biStream (p : RpcParams)
  | js (p : JsHeaderParams)
  | memRpc (p : MemRpcParams)
  | listeners (p : ListenersParams)
  deriving DecidableEq

/-- One created output file and the template executions written to it. -/
structure Artifact where
  name : GoStr
  content : List Instr
  deriving DecidableEq

/-- `strings.ToLower`, characterwise. -/
def toLowerStr (s : GoStr) : GoStr := s.map Char.toLower

/-- `strings.LastIndex(s, "/")`, with Go's `-1` for no occurrence. -/
def goLastIndexSlash (s : GoStr) : Int :=
  match findCharIdx '/' s.reverse with
  | none => -1
  | some j => (s.length : Int) - 1 - (j : Int)

/-- `targetName` extraction: the final path segment, only when the last
`/` sits at a positive index (`if i := strings.LastIndex(...); i > 0`). -/
def mkTargetName (targetPkg : GoStr) : GoStr :=
  let i := goLastIndexSlash targetPkg
  if 0 < i then targetPkg.drop (i.toNat + 1) else []

/-- The listener-selection block of `genMobileStubs`: map lookup, empty
result falls back to the default listener, empty default is fatal. -/
def resolveListener (listeners : List (GoStr × GoStr)) (defaultLis n : GoStr) :
    Except GoStr GoStr :=
  let listener := mapGet listeners n
  if listener = [] then
    if defaultLis = [] then .error (gs "no listener set for service " ++ n)
    else .ok defaultLis
  else .ok listener

/-- Sequential fallible loop: the first `log.Fatal` aborts, results are
collected in order. -/
def exMapM (f : α → Except GoStr β) : List α → Except GoStr (List β)
  | [] => .ok []
  | a :: l =>
    match f a with
    | .error e => .error e
    | .ok b =>
      match exMapM f l with
      | .error e => .error e
      | .ok bs => .ok (b :: bs)

/-- Input-type qualification shared by both stub generators: split the
input import path, fatal if empty, and prepend the originating package
name when it differs from the generated package. -/
def qualifyInput (pkg : GoStr) (m : MethodSchema) : Except GoStr GoStr :=
  let path := splitChar '/' m.inputImportPath
  if path.length = 0 then
    .error (gs "expected an import path for the input type but got none")
  else
    let inputPkg := path.getLastD []
    if inputPkg ≠ pkg then .ok (inputPkg ++ '.' :: m.inputGoName)
    else .ok m.inputGoName

/-- The per-method body of `genMobileStubs`: build the `rpcParams` record
and dispatch on the two streaming flags; the `(true, false)` combination
is the `default:` fatal branch. -/
def processMethod (pkg : GoStr) (apiPref : Bool) (godoc : List (GoStr × GoStr))
    (serviceGoName : GoStr) (m : MethodSchema) : Except GoStr Instr :=
  match qualifyInput pkg m with
  | .error e => .error e
  | .ok inputType =>
    let p : RpcParams :=
      { serviceName := serviceGoName
        methodName := m.goName
        requestType := inputType
        comment := mapGet godoc m.goName
        apiPref := if apiPref then serviceGoName else [] }
    match m.clientStreaming, m.serverStreaming with
    | false, false => .ok (.sync p)
    | false, true => .ok (.readStream p)
    | true, true => .ok (.biStream p)
    | true, false => .error (gs "unexpected method type")

/-- The configuration values `genMobileStubs` extracts before visiting
services. -/
structure MobileCfg where
  pkg : GoStr
  listeners : List (GoStr × GoStr)
  defaultLis : GoStr
  targetPkg : GoStr
  targetName : GoStr
  buildTags : GoStr
  apiPref : Bool

/-- The per-service body of `genMobileStubs`: resolve the listener, open
the per-service artifact, write the header and service templates, then
every method's template. -/
def processService (cfg : MobileCfg) (godoc : List (GoStr × GoStr))
    (s : ServiceSchema) : Except GoStr Artifact :=
  let name := s.goName
  let n := toLowerStr name
  match resolveListener cfg.listeners cfg.defaultLis n with
  | .error e => .error e
  | .ok listener =>
    let filename := gs "./" ++ n ++ gs "_api_generated.go"
    let hdr : HeaderParams :=
      { toolNm := versionString, fileName := filename, pkg := cfg.pkg
        targetPkg := cfg.targetPkg, buildTags := cfg.buildTags }
    let sp : ServiceParams :=
      { serviceName := name, targetName := cfg.targetName, listener := listener }
    match exMapM (processMethod cfg.pkg cfg.apiPref godoc name) s.methods with
    | .error e => .error e
    | .ok ms => .ok { name := filename, content := Instr.header hdr :: Instr.service sp :: ms }

/-- `genMobileStubs`: required-key checks, listener sub-map parsing, then
one artifact per service. -/
def genMobileStubs (param godoc : List (GoStr × GoStr)) (file : FileSchema) :
    Except GoStr (List Artifact) :=
  let pkg := mapGet param (gs "package_name")
  if pkg = [] then .error (gs "package name not set")
  else
    let targetPkg := mapGet param (gs "target_package")
    if targetPkg = [] then .error (gs "target package not set")
    else
      let cfg : MobileCfg :=
        { pkg
          listeners := split (mapGet param (gs "listeners")) ' '
          defaultLis := mapGet param (gs "defaultlistener")
          targetPkg
          targetName := mkTargetName targetPkg
          buildTags := mapGet param (gs "build_tags")
          apiPref := mapGet param (gs "api_prefix") = gs "1" }
      exMapM (processService cfg godoc) file.services

/-- The per-method body of `genJSStubs`: qualify the input type, set the
response-streaming flag from `serverStreaming`, and skip (`continue`)
client-streaming methods. -/
def jsMethodEntry (pkg serviceGoName : GoStr) (m : MethodSchema) :
    Except GoStr (Option JsRpcParams) :=
  match qualifyInput pkg m with
  | .error e => .error e
  | .ok inputType =>
    let p : JsRpcParams :=
      { methodName := m.goName, serviceName := serviceGoName
        requestType := inputType, responseStreaming := m.serverStreaming }
    if m.clientStreaming then .ok none else .ok (some p)

/-- The per-service body of `genJSStubs`: one artifact holding a single
`jsTemplate` execution whose record carries the surviving methods. -/
def processJsService (pkg buildTag manualImport protoName : GoStr)
    (s : ServiceSchema) : Except GoStr Artifact :=
  let name := s.goName
  let n := toLowerStr name
  match exMapM (jsMethodEntry pkg name) s.methods with
  | .error e => .error e
  | .ok entries =>
    let ps : JsHeaderParams :=
      { toolNm := versionString, fileName := protoName, serviceName := name
        pkg, manualImport, buildTag, methods := entries.reduceOption }
    .ok { name := gs "./" ++ n ++ gs ".pb.json.go", content := [Instr.js ps] }

/-- `genJSStubs`: required-key check, then one artifact per service. -/
def genJSStubs (param : List (GoStr × GoStr)) (file : FileSchema) :
    Except GoStr (List Artifact) :=
  let pkg := mapGet param (gs "package_name")
  if pkg = [] then .error (gs "package name not set")
  else
    exMapM
      (processJsService pkg (mapGet param (gs "build_tags"))
        (mapGet param (gs "manual_import")) file.protoName)
      file.services

/-- The de-duplication loop of `genMemRPC`, with the `added` set. -/
def buildUsed : List GoStr → List GoStr → List GoStr
  | [], _ => []
  | l :: rest, added =>
    if l ∈ added then buildUsed rest added
    else l :: buildUsed rest (l :: added)

/-- `genMemRPC`: required-key check, listener sub-map parsing, then the
two fixed-name scaffolding artifacts; the second carries the
de-duplicated configured listener values. -/
def genMemRPC (param : List (GoStr × GoStr)) : Except GoStr (List Artifact) :=
  let pkg := mapGet param (gs "package_name")
  if pkg = [] then .error (gs "package name not set")
  else
    let listeners := split (mapGet param (gs "listeners")) ' '
    let usedListeners := buildUsed (mapValues listeners) []
    .ok
      [ { name := gs "./memrpc_generated.go"
          content := [Instr.memRpc { toolNm := versionString, pkg }] },
        { name := gs "./listeners_generated.go"
          content := [Instr.listeners
            { toolNm := versionString, pkg, listeners := usedListeners }] } ]

/-- The per-file body of `main`'s loop: skip non-`Generate` files, extract
comments, produce mobile or JS stubs, then the mem-RPC scaffolding when
requested. -/
def processFile (param : List (GoStr × GoStr)) (f : FileSchema) :
    Except GoStr (List Artifact) :=
  if f.generate = false then .ok []
  else
    let godoc := extractComments f.comments
    let stubs :=
      if mapGet param (gs "js_stubs") = gs "1" then genJSStubs param f
      else genMobileStubs param godoc f
    match stubs with
    | .error e => .error e
    | .ok arts =>
      if mapGet param (gs "mem_rpc") = gs "1" then
        match genMemRPC param with
        | .error e => .error e
        | .ok mem => .ok (arts ++ mem)
      else .ok arts

/-- `main`'s file loop, sequential with fatal short-circuiting. -/
def falafelRun (param : List (GoStr × GoStr)) : List FileSchema → Except GoStr (List Artifact)
  | [] => .ok []
  | f :: rest =>
    match processFile param f with
    | .error e => .error e
    | .ok a =>
      match falafelRun param rest with
      | .error e => .error e
      | .ok b => .ok (a ++ b)

/-- The whole run: parse the parameter string, then process every file. -/
def falafelMain (parameter : GoStr) (files : List FileSchema) :
    Except GoStr (List Artifact) :=
  falafelRun (parseParams parameter) files

/-- Follows the spec's words (§4.4), for comparison with `genMemRPC`:
resolve one listener per service in order, failing fatally as resolution
does. -/
def specResolveAll (listeners : List (GoStr × GoStr)) (defaultLis : GoStr) :
    List GoStr → Except GoStr (List GoStr)
  | [] => .ok []
  | nm :: rest =>
    match resolveListener listeners defaultLis (toLowerStr nm) with
    | .error e => .error e
    | .ok l =>
      match specResolveAll listeners defaultLis rest with
      | .error e => .error e
      | .ok ls => .ok (l :: ls)

/-- Follows the spec's words (§4.4), for comparison with `genMemRPC`: the
registry of identifiers actually resolved for the visited services,
de-duplicated in first-occurrence order. -/
def specRegistry (listeners : List (GoStr × GoStr)) (defaultLis : GoStr)
    (serviceNames : List GoStr) : Except GoStr (List GoStr) :=
  match specResolveAll listeners defaultLis serviceNames with
  | .error e => .error e
  | .ok ls => .ok (buildUsed ls [])

/-- All template executions of a run, in emission order. -/
def allInstrs : List Artifact → List Instr
  | [] => []
  | a :: rest => a.content ++ allInstrs rest

def isMemInstr : Instr → Bool
  | .memRpc _ => true
  | _ => false

def isLisInstr : Instr → Bool
  | .listeners _ => true
  | _ => false



/-! ### Basic lemmas about the string primitives -/

theorem splitChar_ne_nil (sep : Char) (s : List Char) : splitChar sep s ≠ [] := by
  induction s with
  | nil => simp [splitChar]
  | cons c rest ih =>
    by_cases h : c = sep
    · simp [splitChar, h]
    · simp only [splitChar, if_neg h]
      cases hs : splitChar sep rest <;> simp

theorem findCharIdx_eq_none {t : Char} {s : List Char} (h : t ∉ s) :
    findCharIdx t s = none := by
  induction s with
  | nil => rfl
  | cons c rest ih =>
    have hc : c ≠ t := fun e => h (by simp [e])
    have hr : t ∉ rest := fun hm => h (List.mem_cons_of_mem _ hm)
    simp [findCharIdx, hc, ih hr]

theorem findCharIdx_append {t : Char} {k : List Char} (v : List Char) (h : t ∉ k) :
    findCharIdx t (k ++ t :: v) = some k.length := by
  induction k with
  | nil => simp [findCharIdx]
  | cons c rest ih =>
    have hc : c ≠ t := fun e => h (by simp [e])
    have hr : t ∉ rest := fun hm => h (List.mem_cons_of_mem _ hm)
    simp [findCharIdx, hc, ih hr]

theorem take_len_append (k t : List Char) : (k ++ t).take k.length = k := by
  induction k with
  | nil => rfl
  | cons c rest ih => simp [ih]

theorem drop_len_append (k : List Char) (x : Char) (v : List Char) :
    (k ++ x :: v).drop (k.length + 1) = v := by
  induction k with
  | nil => rfl
  | cons c rest ih => simp [ih]

theorem splitChar_no_sep {sep : Char} {s : List Char} (h : sep ∉ s) :
    splitChar sep s = [s] := by
  induction s with
  | nil => rfl
  | cons c rest ih =>
    have hc : c ≠ sep := fun e => h (by simp [e])
    have hr : sep ∉ rest := fun hm => h (List.mem_cons_of_mem _ hm)
    simp [splitChar, hc, ih hr]

/-! ### Lemmas about the comment-reformatting passes -/

theorem replaceNl_no_nl {s : GoStr} (h : '\n' ∉ s) : replaceNl s = s := by
  induction s with
  | nil => rfl
  | cons c rest ih =>
    have hc : c ≠ '\n' := fun e => h (by simp [e])
    have hr : '\n' ∉ rest := fun hm => h (List.mem_cons_of_mem _ hm)
    simp [replaceNl, hc, ih hr]

theorem replaceNl_append (a b : GoStr) :
    replaceNl (a ++ b) = replaceNl a ++ replaceNl b := by
  induction a with
  | nil => rfl
  | cons c rest ih =>
    by_cases hc : c = '\n' <;> simp [replaceNl, hc, ih]

theorem trimSpNl_pat (r : GoStr) :
    trimSpNl (' ' :: '\n' :: '/' :: '/' :: r) = '\n' :: '/' :: '/' :: trimSpNl r := rfl

theorem trimSpNl_cons_ne {c : Char} (hc : c ≠ ' ') (r : GoStr) :
    trimSpNl (c :: r) = c :: trimSpNl r := by
  rw [trimSpNl.eq_def]
  split
  · next rest heq => injection heq with h1 h2; exact absurd h1 hc
  · next c2 rest2 heq => injection heq with h1 h2; subst h1; subst h2; rfl
  · next heq => simp at heq

theorem trimSpNl_sp_cons {d : Char} (hd : d ≠ '\n') (r : GoStr) :
    trimSpNl (' ' :: d :: r) = ' ' :: trimSpNl (d :: r) := by
  rw [trimSpNl.eq_def]
  split
  · next rest heq =>
    injection heq with h1 h2; injection h2 with h3 h4; exact absurd h3 hd
  · next c2 rest2 heq => injection heq with h1 h2; subst h1; subst h2; rfl
  · next heq => simp at heq

theorem trimSpNl_no_nl : ∀ {s : GoStr}, '\n' ∉ s → trimSpNl s = s := by
  intro s
  induction s with
  | nil => intro _; rfl
  | cons c rest ih =>
    intro h
    have hr : '\n' ∉ rest := fun hm => h (List.mem_cons_of_mem _ hm)
    by_cases hc : c = ' '
    · subst hc
      cases rest with
      | nil => rfl
      | cons d r2 =>
        have hd : d ≠ '\n' := fun e => hr (by simp [e])
        rw [trimSpNl_sp_cons hd, ih hr]
    · rw [trimSpNl_cons_ne hc, ih hr]

theorem replaceNl_length (s : GoStr) :
    (replaceNl s).length = s.length + 3 * s.count '\n' := by
  induction s with
  | nil => rfl
  | cons c rest ih =>
    by_cases hc : c = '\n' <;>
      simp [replaceNl, hc, ih, List.count_cons] <;> omega

theorem count_nl_replaceNl (s : GoStr) :
    (replaceNl s).count '\n' = s.count '\n' := by
  induction s with
  | nil => rfl
  | cons c rest ih =>
    by_cases hc : c = '\n' <;>
      simp [replaceNl, hc, ih, List.count_cons]

theorem trimSpNl_length_aux :
    ∀ (n : Nat) (s : GoStr), s.length ≤ n →
      s.length ≤ (trimSpNl s).length + s.count '\n' := by
  intro n
  induction n with
  | zero =>
    intro s hs
    have hnil : s = [] := List.length_eq_zero.mp (Nat.le_zero.mp hs)
    subst hnil; simp [trimSpNl]
  | succ n ih =>
    intro s hs
    rw [trimSpNl.eq_def]
    split
    · next rest =>
      have hrest := ih rest (by simp at hs; omega)
      simp [List.count_cons]
      omega
    · next c rest hmis =>
      have hrest := ih rest (by simp at hs; omega)
      by_cases hc : c = '\n' <;> simp [List.count_cons, hc] <;> omega
    · simp

theorem reformat_length_ge (s : GoStr) : s.length ≤ (reformat s).length := by
  have h1 := replaceNl_length s
  have h2 := count_nl_replaceNl s
  have h3 := trimSpNl_length_aux (replaceNl s).length (replaceNl s) le_rfl
  unfold reformat
  omega

theorem trimSpNl_junction : ∀ (L r : GoStr), '\n' ∉ L → '\n' ∉ r →
    trimSpNl (L ++ ' ' :: '\n' :: '/' :: '/' :: r) = L ++ '\n' :: '/' :: '/' :: r := by
  intro L
  induction L with
  | nil =>
    intro r _ hr
    simp only [List.nil_append]
    rw [trimSpNl_pat, trimSpNl_no_nl hr]
  | cons c L2 ih =>
    intro r hL hr
    have hL2 : '\n' ∉ L2 := fun hm => hL (List.mem_cons_of_mem _ hm)
    by_cases hc : c = ' '
    · subst hc
      cases L2 with
      | nil =>
        simp only [List.cons_append, List.nil_append]
        rw [trimSpNl_sp_cons (by decide), trimSpNl_pat, trimSpNl_no_nl hr]
      | cons d L3 =>
        have hd : d ≠ '\n' := fun e => hL2 (by simp [e])
        simp only [List.cons_append]
        rw [trimSpNl_sp_cons hd]
        have := ih r hL2 hr
        simp only [List.cons_append] at this
        rw [this]
    · simp only [List.cons_append]
      rw [trimSpNl_cons_ne hc, ih r hL2 hr]

/-! ### Claim C4 -/

/-- Claim C4: the configuration parser is total and splits every
comma-separated token only at its first `=`; the four example inputs
produce exactly the stated mappings.  (Totality is witnessed by
`parseParams` being a total Lean function.) -/
theorem parse_params_split_first_eq :
    parseParams [] = [] ∧
    parseParams (gs "a") = [(gs "a", [])] ∧
    parseParams (gs "a=1,b=2") = [(gs "a", gs "1"), (gs "b", gs "2")] ∧
    parseParams (gs "a=1=2") = [(gs "a", gs "1=2")] ∧
    ∀ k v : GoStr, '=' ∉ k → ',' ∉ k → ',' ∉ v →
      parseParams (k ++ '=' :: v) = [(k, v)] := by
  refine ⟨rfl, rfl, by decide, by decide, ?_⟩
  intro k v hk hkc hvc
  have hne : k ++ '=' :: v ≠ [] := by cases k <;> simp
  have hnosep : ',' ∉ k ++ '=' :: v := by
    intro hm
    rcases List.mem_append.mp hm with h | h
    · exact hkc h
    · rcases List.mem_cons.mp h with h | h
      · exact absurd h (by decide)
      · exact hvc h
  unfold parseParams goKVSplit
  rw [if_neg hne, splitChar_no_sep hnosep]
  simp [kvOfToken, findCharIdx_append v hk, take_len_append, drop_len_append, mapInsert]

/-- Witness for C4's general first-`=` clause at a concrete token. -/
theorem parse_params_split_first_eq_witness :
    ('=' ∉ gs "x") ∧ (',' ∉ gs "x") ∧ (',' ∉ gs "1=2") ∧
    parseParams (gs "x" ++ '=' :: gs "1=2") = [(gs "x", gs "1=2")] :=
  ⟨by decide, by decide, by decide,
   parse_params_split_first_eq.2.2.2.2 (gs "x") (gs "1=2") (by decide) (by decide) (by decide)⟩

/-! ### Claim C5 -/

/-- Claim C5 (counterexample): with the mapping entry `bar=` (an exact
match mapped to the empty string) and a non-empty default, resolution
returns the default, not the mapping entry, so "an exact match wins" is
false as stated. -/
theorem listener_exact_match_counterexample :
    split (gs "bar=") ' ' = [(gs "bar", [])] ∧
    lookupKey [(gs "bar", [])] (gs "bar") = some [] ∧
    resolveListener [(gs "bar", [])] (gs "defLis") (gs "bar") = .ok (gs "defLis") ∧
    gs "defLis" ≠ [] :=
  ⟨by decide, by decide, rfl, by decide⟩

/-- Claim C5 (amended): an exact match wins only when its value is
non-empty; an empty lookup result falls back to a non-empty default and
otherwise fails fatally naming the service; the three example
resolutions behave as claimed. -/
theorem listener_resolution_amended :
    (∀ L d n, mapGet L n ≠ [] → resolveListener L d n = .ok (mapGet L n)) ∧
    (∀ L d n, mapGet L n = [] → d ≠ [] → resolveListener L d n = .ok d) ∧
    (∀ L d n, mapGet L n = [] → d = [] →
      resolveListener L d n = .error (gs "no listener set for service " ++ n)) ∧
    resolveListener (split (gs "foo=fooLis") ' ') (gs "defLis") (toLowerStr (gs "Foo"))
      = .ok (gs "fooLis") ∧
    resolveListener (split (gs "foo=fooLis") ' ') (gs "defLis") (toLowerStr (gs "Bar"))
      = .ok (gs "defLis") ∧
    resolveListener (split (gs "foo=fooLis") ' ') [] (toLowerStr (gs "Bar"))
      = .error (gs "no listener set for service " ++ gs "bar") := by
  refine ⟨?_, ?_, ?_, rfl, rfl, rfl⟩
  · intro L d n h; simp [resolveListener, h]
  · intro L d n h hd; simp [resolveListener, h, hd]
  · intro L d n h hd; simp [resolveListener, h, hd]

/-- Witness for C5's amended general clauses at concrete inputs. -/
theorem listener_resolution_amended_witness :
    (mapGet [(gs "foo", gs "fooLis")] (gs "foo") ≠ []) ∧
    resolveListener [(gs "foo", gs "fooLis")] (gs "defLis") (gs "foo")
      = .ok (mapGet [(gs "foo", gs "fooLis")] (gs "foo")) :=
  ⟨by decide,
   listener_resolution_amended.1 [(gs "foo", gs "fooLis")] (gs "defLis") (gs "foo") (by decide)⟩

/-! ### Claim C10 -/

theorem mapGet_of_lookupKey {L : List (GoStr × GoStr)} {n v : GoStr}
    (h : lookupKey L n = some v) : mapGet L n = v := by
  induction L with
  | nil => cases h
  | cons p rest ih =>
    obtain ⟨k2, v2⟩ := p
    by_cases hk : k2 = n
    · simp [lookupKey, hk] at h; simp [mapGet, hk, h]
    · simp only [lookupKey, if_neg hk] at h
      simp only [mapGet, if_neg hk]
      exact ih h

/-- Claim C10: a listeners entry explicitly mapping a service to the
empty string behaves exactly like an absent entry, and an explicitly
configured empty listener is never the resolved identifier. -/
theorem empty_listener_entry_absent :
    ∀ L d n, lookupKey L n = some [] →
      (resolveListener L d n = resolveListener [] d n ∧
       ∀ r, resolveListener L d n = .ok r → r ≠ []) := by
  intro L d n h
  have hm : mapGet L n = [] := mapGet_of_lookupKey h
  refine ⟨by simp [resolveListener, hm, mapGet], ?_⟩
  intro r hr
  by_cases hd : d = []
  · subst hd; simp [resolveListener, hm] at hr
  · have h2 : resolveListener L d n = .ok d := by simp [resolveListener, hm, hd]
    rw [h2] at hr
    injection hr with h3
    subst h3
    exact hd

/-- Witness for C10 at the configured token `svc=`. -/
theorem empty_listener_entry_absent_witness :
    (lookupKey (split (gs "svc=") ' ') (gs "svc") = some []) ∧
    (resolveListener (split (gs "svc=") ' ') (gs "defLis") (gs "svc")
       = resolveListener [] (gs "defLis") (gs "svc")) ∧
    ∀ r, resolveListener (split (gs "svc=") ' ') (gs "defLis") (gs "svc") = .ok r → r ≠ [] :=
  ⟨by decide,
   (empty_listener_entry_absent (split (gs "svc=") ' ') (gs "defLis") (gs "svc") (by decide)).1,
   (empty_listener_entry_absent (split (gs "svc=") ' ') (gs "defLis") (gs "svc") (by decide)).2⟩

/-! ### Claim C3 -/

/-- Claim C3 (counterexample): a raw comment block containing no newline
is not skipped: only its first character is dropped and an index entry is
still created. -/
theorem no_newline_block_entry_counterexample :
    ('\n' ∉ gs "Xmethod does things") ∧
    processBlock (gs "Xmethod does things") = some (gs "method", gs "// method does th") :=
  ⟨by decide, by decide⟩

/-- Claim C3 (amended): on a block with no newline the extractor drops
exactly one character (the scan index stays `0`) and proceeds; the block
is skipped precisely when it has fewer than five characters in total. -/
theorem no_newline_block_amended :
    ∀ c : GoStr, '\n' ∉ c → (processBlock c = none ↔ c.length < 5) := by
  intro c h
  by_cases hc : c = []
  · subst hc; simp [processBlock]
  · have hfi : firstNlIdx c = 0 := by
      unfold firstNlIdx; rw [findCharIdx_eq_none h]; rfl
    have hc1 : stepOne c = c.drop 1 := by simp [stepOne, hfi]
    have hnl1 : '\n' ∉ c.drop 1 := fun hm => h (List.drop_subset _ _ hm)
    have href : reformat (c.drop 1) = c.drop 1 := by
      unfold reformat; rw [replaceNl_no_nl hnl1, trimSpNl_no_nl hnl1]
    have hpos : 1 ≤ c.length := List.length_pos.mpr hc
    simp only [processBlock, if_neg hc, hc1, href, List.length_drop]
    by_cases h4 : c.length - 1 < 4
    · simp only [if_pos h4]
      simp
      omega
    · simp only [if_neg h4]
      constructor
      · intro hcontra; simp at hcontra
      · intro hlt; omega

/-- Witness for C3's amended claim at a concrete newline-free block. -/
theorem no_newline_block_amended_witness :
    ('\n' ∉ gs "Xabc") ∧ (processBlock (gs "Xabc") = none ↔ (gs "Xabc").length < 5) :=
  ⟨by decide, no_newline_block_amended (gs "Xabc") (by decide)⟩

/-! ### Claim C8 -/

/-- Claim C8 (counterexample): the length-4 guard runs after reformatting,
not on the step-1 remainder: the block `"meta\na\nb"` has a step-1
remainder of three characters yet still produces an entry. -/
theorem short_remainder_entry_counterexample :
    ((stepOne (gs "meta\na\nb")).length < 4) ∧
    processBlock (gs "meta\na\nb") = some ([], gs "// a\n") :=
  ⟨by decide, by decide⟩

/-- Claim C8 (amended): a block is discarded exactly when its reformatted
remainder is shorter than four characters; since reformatting never
shrinks the text, every block whose step-1 remainder has at least four
characters still produces an entry, equal to `// ` plus the reformatted
remainder with its final four characters dropped. -/
theorem discard_after_reformat :
    ∀ c : GoStr, c ≠ [] →
      ((processBlock c = none ↔ (reformat (stepOne c)).length < 4) ∧
       (4 ≤ (stepOne c).length → ∃ e, processBlock c = some e) ∧
       (4 ≤ (reformat (stepOne c)).length →
         processBlock c = some ((stepOne c).take (firstSpIdx (stepOne c)),
           '/' :: '/' :: ' ' ::
             (reformat (stepOne c)).take ((reformat (stepOne c)).length - 4)))) := by
  intro c hc
  have hge := reformat_length_ge (stepOne c)
  by_cases h4 : (reformat (stepOne c)).length < 4
  · have hpb : processBlock c = none := by
      simp only [processBlock, if_neg hc, if_pos h4]
    refine ⟨by simp [hpb, h4], ?_, ?_⟩
    · intro hlen; omega
    · intro hlen; omega
  · have hpb : processBlock c = some ((stepOne c).take (firstSpIdx (stepOne c)),
        '/' :: '/' :: ' ' ::
          (reformat (stepOne c)).take ((reformat (stepOne c)).length - 4)) := by
      simp only [processBlock, if_neg hc, if_neg h4]
    refine ⟨by simp [hpb, h4], ?_, fun _ => hpb⟩
    intro _; exact ⟨_, hpb⟩

/-- Witness for C8's amended claim at a concrete block. -/
theorem discard_after_reformat_witness :
    (gs "m\nabcdefg" ≠ ([] : GoStr)) ∧
    (processBlock (gs "m\nabcdefg") = none
       ↔ (reformat (stepOne (gs "m\nabcdefg"))).length < 4) ∧
    (4 ≤ (stepOne (gs "m\nabcdefg")).length →
       ∃ e, processBlock (gs "m\nabcdefg") = some e) := by
  have h := discard_after_reformat (gs "m\nabcdefg") (by decide)
  exact ⟨by decide, h.1, h.2.1⟩

/-! ### Claim C7 -/

/-- Claim C7 (counterexample): a line ending in two trailing spaces keeps
one of them after the reformat step: the result still contains a space
immediately before an inserted `\n// ` prefix. -/
theorem trailing_spaces_remain_counterexample :
    reformat (gs "ab  \ncd") = gs "ab \n// cd" ∧
    ∃ a b : GoStr,
      reformat (gs "ab  \ncd") = a ++ (' ' :: '\n' :: '/' :: '/' :: ' ' :: []) ++ b :=
  ⟨by decide, gs "ab", gs "cd", by decide⟩

/-- Claim C7 (amended): the trailing-space pass is a single
non-overlapping replacement, so exactly one trailing space is removed
before each inserted prefix: a line with `k + 1` trailing spaces keeps
`k` of them. -/
theorem trailing_space_single_trim :
    ∀ (l1 l2 : GoStr) (k : Nat), '\n' ∉ l1 → '\n' ∉ l2 →
      reformat (l1 ++ List.replicate (k + 1) ' ' ++ '\n' :: l2)
        = l1 ++ List.replicate k ' ' ++ '\n' :: '/' :: '/' :: ' ' :: l2 := by
  intro l1 l2 k h1 h2
  have hxs : '\n' ∉ l1 ++ List.replicate (k + 1) ' ' := by
    intro hm
    rcases List.mem_append.mp hm with h | h
    · exact h1 h
    · exact absurd (List.eq_of_mem_replicate h) (by decide)
  have hnlrep : replaceNl ('\n' :: l2) = '\n' :: '/' :: '/' :: ' ' :: l2 := by
    simp [replaceNl, replaceNl_no_nl h2]
  unfold reformat
  rw [replaceNl_append, replaceNl_no_nl hxs, hnlrep]
  rw [List.replicate_succ']
  have hassoc :
      (l1 ++ (List.replicate k ' ' ++ [' '])) ++ '\n' :: '/' :: '/' :: ' ' :: l2
        = (l1 ++ List.replicate k ' ') ++ ' ' :: '\n' :: '/' :: '/' :: (' ' :: l2) := by
    simp
  have hL : '\n' ∉ l1 ++ List.replicate k ' ' := by
    intro hm
    rcases List.mem_append.mp hm with h | h
    · exact h1 h
    · exact absurd (List.eq_of_mem_replicate h) (by decide)
  have hr : '\n' ∉ ' ' :: l2 := by
    intro hm
    rcases List.mem_cons.mp hm with h | h
    · exact absurd h (by decide)
    · exact h2 h
  calc trimSpNl ((l1 ++ (List.replicate k ' ' ++ [' '])) ++ '\n' :: '/' :: '/' :: ' ' :: l2)
      = trimSpNl ((l1 ++ List.replicate k ' ') ++ ' ' :: '\n' :: '/' :: '/' :: (' ' :: l2)) := by
        rw [hassoc]
    _ = (l1 ++ List.replicate k ' ') ++ '\n' :: '/' :: '/' :: (' ' :: l2) :=
        trimSpNl_junction _ _ hL hr
    _ = l1 ++ List.replicate k ' ' ++ '\n' :: '/' :: '/' :: ' ' :: l2 := by simp

/-- Witness for C7's amended claim: the counterexample input, two
trailing spaces reduced to one. -/
theorem trailing_space_single_trim_witness :
    ('\n' ∉ gs "ab") ∧ ('\n' ∉ gs "cd") ∧
    reformat (gs "ab" ++ List.replicate 2 ' ' ++ '\n' :: gs "cd")
      = gs "ab" ++ List.replicate 1 ' ' ++ '\n' :: '/' :: '/' :: ' ' :: gs "cd" :=
  ⟨by decide, by decide,
   trailing_space_single_trim (gs "ab") (gs "cd") 1 (by decide) (by decide)⟩

/-! ### Claim C9 -/

theorem mem_buildUsed : ∀ (ls added : List GoStr) (x : GoStr),
    x ∈ buildUsed ls added ↔ (x ∈ ls ∧ x ∉ added) := by
  intro ls
  induction ls with
  | nil => intro added x; simp [buildUsed]
  | cons l rest ih =>
    intro added x
    by_cases hl : l ∈ added
    · simp only [buildUsed, if_pos hl]
      rw [ih]
      constructor
      · rintro ⟨hx, hna⟩
        exact ⟨List.mem_cons_of_mem _ hx, hna⟩
      · rintro ⟨hx, hna⟩
        rcases List.mem_cons.mp hx with rfl | hx2
        · exact absurd hl hna
        · exact ⟨hx2, hna⟩
    · simp only [buildUsed, if_neg hl]
      constructor
      · intro hx
        rcases List.mem_cons.mp hx with rfl | hx2
        · exact ⟨List.mem_cons_self _ _, hl⟩
        · rw [ih] at hx2
          obtain ⟨ha, hb⟩ := hx2
          exact ⟨List.mem_cons_of_mem _ ha,
                 fun hcontra => hb (List.mem_cons_of_mem _ hcontra)⟩
      · rintro ⟨hx, hna⟩
        rcases List.mem_cons.mp hx with rfl | hx2
        · exact List.mem_cons_self _ _
        · by_cases hxl : x = l
          · subst hxl; exact List.mem_cons_self _ _
          · apply List.mem_cons_of_mem
            rw [ih]
            refine ⟨hx2, ?_⟩
            intro hcontra
            rcases List.mem_cons.mp hcontra with h | h
            · exact hxl h
            · exact hna h

theorem buildUsed_nodup : ∀ (ls added : List GoStr), (buildUsed ls added).Nodup := by
  intro ls
  induction ls with
  | nil => intro added; simp [buildUsed]
  | cons l rest ih =>
    intro added
    by_cases hl : l ∈ added
    · simpa [buildUsed, hl] using ih added
    · simp only [buildUsed, if_neg hl]
      rw [List.nodup_cons]
      refine ⟨?_, ih _⟩
      intro hmem
      rw [mem_buildUsed] at hmem
      exact hmem.2 (List.mem_cons_self _ _)

/-- Claim C9: the listener registry handed to the listener-registration
scaffolding is duplicate-free, and an identifier appears in it exactly
when it is a value of the configured listeners mapping — two services
mapped to the same identifier contribute it once. -/
theorem registry_never_duplicates :
    ∀ param out, genMemRPC param = .ok out →
      ∃ a1 p,
        out = [a1, { name := gs "./listeners_generated.go", content := [Instr.listeners p] }] ∧
        p.listeners.Nodup ∧
        ∀ v, v ∈ p.listeners ↔ v ∈ mapValues (split (mapGet param (gs "listeners")) ' ') := by
  intro param out h
  by_cases hp : mapGet param (gs "package_name") = []
  · simp [genMemRPC, hp] at h
  · simp only [genMemRPC, if_neg hp] at h
    injection h with h2
    refine ⟨_, _, h2.symm, buildUsed_nodup _ _, ?_⟩
    intro v
    rw [mem_buildUsed]
    simp

/-- Witness for C9: two services configured onto the same listener `x`
produce a registry carrying `x` exactly once. -/
theorem registry_never_duplicates_witness :
    ∃ a1 p,
      ([ { name := gs "./memrpc_generated.go"
           content := [Instr.memRpc { toolNm := versionString, pkg := gs "p" }] },
         { name := gs "./listeners_generated.go"
           content := [Instr.listeners
             { toolNm := versionString, pkg := gs "p", listeners := [gs "x"] }] } ] : List Artifact)
        = [a1, { name := gs "./listeners_generated.go", content := [Instr.listeners p] }] ∧
      p.listeners.Nodup ∧
      ∀ v, v ∈ p.listeners ↔
        v ∈ mapValues (split (mapGet (parseParams (gs "package_name=p,listeners=a=x b=x"))
          (gs "listeners")) ' ') :=
  registry_never_duplicates (parseParams (gs "package_name=p,listeners=a=x b=x")) _ rfl


/-! ### Claim C1 -/

/-- The value `qualifyInput` always succeeds with (its fatal branch is
unreachable because `splitChar` never returns an empty list). -/
def qualifiedInput (pkg : GoStr) (m : MethodSchema) : GoStr :=
  let path := splitChar '/' m.inputImportPath
  let inputPkg := path.getLastD []
  if inputPkg ≠ pkg then inputPkg ++ '.' :: m.inputGoName else m.inputGoName

theorem qualifyInput_eq (pkg : GoStr) (m : MethodSchema) :
    qualifyInput pkg m = .ok (qualifiedInput pkg m) := by
  have hne : splitChar '/' m.inputImportPath ≠ [] := splitChar_ne_nil _ _
  have hlen : ¬ (splitChar '/' m.inputImportPath).length = 0 := by
    simpa [List.length_eq_zero] using hne
  simp only [qualifyInput, qualifiedInput, if_neg hlen]
  by_cases h : (splitChar '/' m.inputImportPath).getLastD [] ≠ pkg
  · simp only [if_pos h]
  · simp only [if_neg h]

theorem processMethod_cases (pkg : GoStr) (ap : Bool) (godoc : List (GoStr × GoStr))
    (sn : GoStr) (m : MethodSchema) :
    ∃ p : RpcParams,
      processMethod pkg ap godoc sn m =
        (match m.clientStreaming, m.serverStreaming with
         | false, false => .ok (.sync p)
         | false, true => .ok (.readStream p)
         | true, true => .ok (.biStream p)
         | true, false => .error (gs "unexpected method type")) := by
  refine ⟨{ serviceName := sn, methodName := m.goName
            requestType := qualifiedInput pkg m
            comment := mapGet godoc m.goName
            apiPref := if ap then sn else [] }, ?_⟩
  simp only [processMethod, qualifyInput_eq]

theorem processMethod_err {pkg : GoStr} {ap : Bool} {godoc : List (GoStr × GoStr)}
    {sn : GoStr} {m : MethodSchema}
    (h1 : m.clientStreaming = true) (h2 : m.serverStreaming = false) :
    processMethod pkg ap godoc sn m = .error (gs "unexpected method type") := by
  obtain ⟨p, hp⟩ := processMethod_cases pkg ap godoc sn m
  rw [h1, h2] at hp
  exact hp

theorem exMapM_err_of_mem {f : α → Except GoStr β} {l : List α} {a : α} {e : GoStr}
    (ha : a ∈ l) (hf : f a = .error e) : ∃ e2, exMapM f l = .error e2 := by
  induction l with
  | nil => cases ha
  | cons x rest ih =>
    rcases List.mem_cons.mp ha with rfl | hmem
    · exact ⟨e, by simp [exMapM, hf]⟩
    · cases hx : f x with
      | error e3 => exact ⟨e3, by simp [exMapM, hx]⟩
      | ok b =>
        obtain ⟨e2, he2⟩ := ih hmem
        exact ⟨e2, by simp [exMapM, hx, he2]⟩

theorem processService_err (cfg : MobileCfg) (godoc : List (GoStr × GoStr))
    {s : ServiceSchema} {m : MethodSchema} (hm : m ∈ s.methods)
    (h1 : m.clientStreaming = true) (h2 : m.serverStreaming = false) :
    ∃ e, processService cfg godoc s = .error e := by
  unfold processService
  cases hres : resolveListener cfg.listeners cfg.defaultLis (toLowerStr s.goName) with
  | error e => exact ⟨e, by simp [hres]⟩
  | ok lis =>
    obtain ⟨e2, he2⟩ :=
      exMapM_err_of_mem hm
        (@processMethod_err cfg.pkg cfg.apiPref godoc s.goName m h1 h2)
    exact ⟨e2, by simp [hres, he2]⟩

theorem exMapM_processService_err (cfg : MobileCfg) (godoc : List (GoStr × GoStr))
    {services : List ServiceSchema} {s : ServiceSchema} {m : MethodSchema}
    (hs : s ∈ services) (hm : m ∈ s.methods)
    (h1 : m.clientStreaming = true) (h2 : m.serverStreaming = false) :
    ∃ e, exMapM (processService cfg godoc) services = .error e := by
  obtain ⟨e1, he1⟩ := processService_err cfg godoc hm h1 h2
  exact exMapM_err_of_mem hs he1

theorem genMobileStubs_err {param godoc : List (GoStr × GoStr)} {file : FileSchema}
    {s : ServiceSchema} {m : MethodSchema} (hs : s ∈ file.services) (hm : m ∈ s.methods)
    (h1 : m.clientStreaming = true) (h2 : m.serverStreaming = false) :
    ∃ e, genMobileStubs param godoc file = .error e := by
  by_cases hp : mapGet param (gs "package_name") = []
  · exact ⟨gs "package name not set", by simp [genMobileStubs, hp]⟩
  · by_cases ht : mapGet param (gs "target_package") = []
    · exact ⟨gs "target package not set", by simp [genMobileStubs, hp, ht]⟩
    · simp only [genMobileStubs, if_neg hp, if_neg ht]
      exact exMapM_processService_err _ _ hs hm h1 h2

theorem processFile_mobile_err {param : List (GoStr × GoStr)} {f : FileSchema}
    {s : ServiceSchema} {m : MethodSchema}
    (hjs : mapGet param (gs "js_stubs") ≠ gs "1") (hgen : f.generate = true)
    (hs : s ∈ f.services) (hm : m ∈ s.methods)
    (h1 : m.clientStreaming = true) (h2 : m.serverStreaming = false) :
    ∃ e, processFile param f = .error e := by
  obtain ⟨e, he⟩ :=
    @genMobileStubs_err param (extractComments f.comments) f s m hs hm h1 h2
  exact ⟨e, by simp [processFile, hgen, hjs, he]⟩

theorem exMapM_congr_ok {f : α → Except GoStr β} {g : α → β} (l : List α)
    (h : ∀ a ∈ l, f a = .ok (g a)) : exMapM f l = .ok (l.map g) := by
  induction l with
  | nil => rfl
  | cons x rest ih =>
    simp [exMapM, h x (List.mem_cons_self _ _),
      ih fun a ha => h a (List.mem_cons_of_mem _ ha)]

theorem reduceOption_ite_map {α β : Type} (p : α → Bool) (mk : α → β) (l : List α) :
    (l.map fun a => if p a then none else some (mk a)).reduceOption
      = (l.filter fun a => !p a).map mk := by
  induction l with
  | nil => rfl
  | cons x rest ih => by_cases hx : p x <;> simp [hx, ih]

theorem processJsService_eq (pkg bt mi pn : GoStr) (s : ServiceSchema) :
    processJsService pkg bt mi pn s = .ok
      { name := gs "./" ++ toLowerStr s.goName ++ gs ".pb.json.go"
        content := [Instr.js
          { toolNm := versionString, fileName := pn, serviceName := s.goName
            pkg := pkg, manualImport := mi, buildTag := bt
            methods := (s.methods.filter fun m => !m.clientStreaming).map
              fun m =>
                { methodName := m.goName, serviceName := s.goName
                  requestType := qualifiedInput pkg m
                  responseStreaming := m.serverStreaming } }] } := by
  have hmap : exMapM (jsMethodEntry pkg s.goName) s.methods
      = .ok (s.methods.map fun m =>
          if m.clientStreaming
          then none
          else some { methodName := m.goName, serviceName := s.goName
                      requestType := qualifiedInput pkg m
                      responseStreaming := m.serverStreaming }) := by
    refine exMapM_congr_ok s.methods ?_
    intro m _
    simp only [jsMethodEntry, qualifyInput_eq]
    by_cases hcs : m.clientStreaming <;> simp [hcs]
  simp only [processJsService, hmap, reduceOption_ite_map]

/-- Claim C1: per-method mode dispatch.  In native/mobile mode
`(false,false)` selects the synchronous template, `(false,true)` the
read-stream template, `(true,true)` the bidirectional template, and
`(true,false)` aborts the entire run fatally; in JS mode every
client-streaming method is silently omitted and every other method
contributes exactly one entry whose response-streaming flag equals its
`serverStreaming` flag. -/
theorem streaming_mode_dispatch :
    (∀ pkg ap godoc sn (m : MethodSchema),
       m.clientStreaming = false → m.serverStreaming = false →
       ∃ p, processMethod pkg ap godoc sn m = .ok (Instr.sync p)) ∧
    (∀ pkg ap godoc sn (m : MethodSchema),
       m.clientStreaming = false → m.serverStreaming = true →
       ∃ p, processMethod pkg ap godoc sn m = .ok (Instr.readStream p)) ∧
    (∀ pkg ap godoc sn (m : MethodSchema),
       m.clientStreaming = true → m.serverStreaming = true →
       ∃ p, processMethod pkg ap godoc sn m = .ok (Instr.biStream p)) ∧
    (∀ pkg ap godoc sn (m : MethodSchema),
       m.clientStreaming = true → m.serverStreaming = false →
       processMethod pkg ap godoc sn m = .error (gs "unexpected method type")) ∧
    (∀ param files (f : FileSchema) (s : ServiceSchema) (m : MethodSchema),
       mapGet param (gs "js_stubs") ≠ gs "1" → f ∈ files → f.generate = true →
       s ∈ f.services → m ∈ s.methods →
       m.clientStreaming = true → m.serverStreaming = false →
       ∃ e, falafelRun param files = .error e) ∧
    (∀ pkg bt mi pn (s : ServiceSchema), ∃ ps,
       processJsService pkg bt mi pn s
         = .ok { name := gs "./" ++ toLowerStr s.goName ++ gs ".pb.json.go"
                 content := [Instr.js ps] } ∧
       ps.methods.map JsRpcParams.responseStreaming
         = (s.methods.filter fun m => !m.clientStreaming).map MethodSchema.serverStreaming ∧
       ps.methods.map JsRpcParams.methodName
         = (s.methods.filter fun m => !m.clientStreaming).map MethodSchema.goName) := by
  refine ⟨?_, ?_, ?_, ?_, ?_, ?_⟩
  · intro pkg ap godoc sn m h1 h2
    obtain ⟨p, hp⟩ := processMethod_cases pkg ap godoc sn m
    rw [h1, h2] at hp
    exact ⟨p, hp⟩
  · intro pkg ap godoc sn m h1 h2
    obtain ⟨p, hp⟩ := processMethod_cases pkg ap godoc sn m
    rw [h1, h2] at hp
    exact ⟨p, hp⟩
  · intro pkg ap godoc sn m h1 h2
    obtain ⟨p, hp⟩ := processMethod_cases pkg ap godoc sn m
    rw [h1, h2] at hp
    exact ⟨p, hp⟩
  · intro pkg ap godoc sn m h1 h2
    exact processMethod_err h1 h2
  · intro param files f s m hjs hf hgen hs hm h1 h2
    induction files with
    | nil => cases hf
    | cons g rest ih =>
      rcases List.mem_cons.mp hf with rfl | hmem
      · obtain ⟨e, he⟩ := processFile_mobile_err hjs hgen hs hm h1 h2
        exact ⟨e, by simp [falafelRun, he]⟩
      · cases hpf : processFile param g with
        | error e => exact ⟨e, by simp [falafelRun, hpf]⟩
        | ok a =>
          obtain ⟨e, he⟩ := ih hmem
          exact ⟨e, by simp [falafelRun, hpf, he]⟩
  · intro pkg bt mi pn s
    refine ⟨_, processJsService_eq pkg bt mi pn s, ?_, ?_⟩ <;>
      simp [List.map_map]

/-- Witness for C1 at concrete methods, config and schema. -/
theorem streaming_mode_dispatch_witness :
    (∃ p, processMethod (gs "p") false [] (gs "S")
        ⟨gs "GetInfo", gs "GetInfoRequest", gs "a/b", false, false⟩ = .ok (Instr.sync p)) ∧
    (∃ p, processMethod (gs "p") false [] (gs "S")
        ⟨gs "Sub", gs "SubRequest", gs "a/b", false, true⟩ = .ok (Instr.readStream p)) ∧
    (∃ p, processMethod (gs "p") false [] (gs "S")
        ⟨gs "Chat", gs "ChatRequest", gs "a/b", true, true⟩ = .ok (Instr.biStream p)) ∧
    (processMethod (gs "p") false [] (gs "S")
        ⟨gs "Up", gs "UpRequest", gs "a/b", true, false⟩
      = .error (gs "unexpected method type")) ∧
    (∃ e, falafelRun (parseParams (gs "package_name=p,target_package=t/u,defaultlistener=d"))
        [⟨gs "rpc.proto", true, [],
          [⟨gs "S", [⟨gs "Up", gs "UpRequest", gs "a/b", true, false⟩]⟩]⟩]
      = .error e) ∧
    (∃ ps, processJsService (gs "p") [] [] (gs "rpc.proto")
        ⟨gs "S", [⟨gs "Up", gs "UpRequest", gs "a/b", true, false⟩,
                  ⟨gs "Sub", gs "SubRequest", gs "a/b", false, true⟩]⟩
        = .ok { name := gs "./" ++ toLowerStr (gs "S") ++ gs ".pb.json.go"
                content := [Instr.js ps] } ∧
      ps.methods.map JsRpcParams.responseStreaming
        = ((⟨gs "S", [⟨gs "Up", gs "UpRequest", gs "a/b", true, false⟩,
                      ⟨gs "Sub", gs "SubRequest", gs "a/b", false, true⟩]⟩ :
            ServiceSchema).methods.filter fun m => !m.clientStreaming).map
            MethodSchema.serverStreaming ∧
      ps.methods.map JsRpcParams.methodName
        = ((⟨gs "S", [⟨gs "Up", gs "UpRequest", gs "a/b", true, false⟩,
                      ⟨gs "Sub", gs "SubRequest", gs "a/b", false, true⟩]⟩ :
            ServiceSchema).methods.filter fun m => !m.clientStreaming).map
            MethodSchema.goName) :=
  ⟨streaming_mode_dispatch.1 (gs "p") false [] (gs "S") _ rfl rfl,
   streaming_mode_dispatch.2.1 (gs "p") false [] (gs "S") _ rfl rfl,
   streaming_mode_dispatch.2.2.1 (gs "p") false [] (gs "S") _ rfl rfl,
   streaming_mode_dispatch.2.2.2.1 (gs "p") false [] (gs "S") _ rfl rfl,
   streaming_mode_dispatch.2.2.2.2.1 _ _ _ _ _ (by decide)
     (List.mem_cons_self _ _) rfl (List.mem_cons_self _ _) (List.mem_cons_self _ _) rfl rfl,
   streaming_mode_dispatch.2.2.2.2.2 (gs "p") [] [] (gs "rpc.proto") _⟩


/-! ### Claim C6 -/

theorem allInstrs_append (a b : List Artifact) :
    allInstrs (a ++ b) = allInstrs a ++ allInstrs b := by
  induction a with
  | nil => rfl
  | cons x rest ih => simp [allInstrs, ih]

theorem exMapM_ok_mem {f : α → Except GoStr β} :
    ∀ {l : List α} {bs : List β}, exMapM f l = .ok bs →
      ∀ b ∈ bs, ∃ a ∈ l, f a = .ok b := by
  intro l
  induction l with
  | nil =>
    intro bs h b hb
    simp only [exMapM] at h
    injection h with h2
    subst h2
    cases hb
  | cons x rest ih =>
    intro bs h b hb
    simp only [exMapM] at h
    cases hx : f x with
    | error e => rw [hx] at h; cases h
    | ok b0 =>
      rw [hx] at h
      cases hrest : exMapM f rest with
      | error e => rw [hrest] at h; cases h
      | ok bs0 =>
        rw [hrest] at h
        injection h with h2
        subst h2
        rcases List.mem_cons.mp hb with rfl | hmem
        · exact ⟨x, List.mem_cons_self _ _, hx⟩
        · obtain ⟨a, ha, hfa⟩ := ih hrest b hmem
          exact ⟨a, List.mem_cons_of_mem _ ha, hfa⟩

theorem processMethod_not_scaffold {pkg : GoStr} {ap : Bool}
    {godoc : List (GoStr × GoStr)} {sn : GoStr} {m : MethodSchema} {b : Instr}
    (h : processMethod pkg ap godoc sn m = .ok b) :
    isMemInstr b = false ∧ isLisInstr b = false := by
  obtain ⟨p, hp⟩ := processMethod_cases pkg ap godoc sn m
  rw [hp] at h
  cases hcs : m.clientStreaming <;> cases hss : m.serverStreaming <;>
    rw [hcs, hss] at h <;> (try cases h) <;> simp [isMemInstr, isLisInstr]

theorem countP_zero_of_all {p : Instr → Bool} {l : List Instr}
    (h : ∀ b ∈ l, p b = false) : l.countP p = 0 := by
  rw [List.countP_eq_zero]
  intro b hb
  simp [h b hb]

theorem processService_counts {cfg : MobileCfg} {godoc : List (GoStr × GoStr)}
    {s : ServiceSchema} {a : Artifact} (h : processService cfg godoc s = .ok a) :
    a.content.countP isMemInstr = 0 ∧ a.content.countP isLisInstr = 0 := by
  simp only [processService] at h
  cases hres : resolveListener cfg.listeners cfg.defaultLis (toLowerStr s.goName) with
  | error e => rw [hres] at h; cases h
  | ok lis =>
    rw [hres] at h
    cases hms : exMapM (processMethod cfg.pkg cfg.apiPref godoc s.goName) s.methods with
    | error e => rw [hms] at h; cases h
    | ok ms =>
      rw [hms] at h
      injection h with h2
      subst h2
      have hall : ∀ b ∈ ms, isMemInstr b = false ∧ isLisInstr b = false := by
        intro b hb
        obtain ⟨m, _, hm⟩ := exMapM_ok_mem hms b hb
        exact processMethod_not_scaffold hm
      constructor <;>
        simp [List.countP_cons, isMemInstr, isLisInstr,
          countP_zero_of_all fun b hb => (hall b hb).1,
          countP_zero_of_all fun b hb => (hall b hb).2]

theorem allInstrs_countP_zero {p : Instr → Bool} {arts : List Artifact}
    (h : ∀ a ∈ arts, a.content.countP p = 0) : (allInstrs arts).countP p = 0 := by
  induction arts with
  | nil => rfl
  | cons a rest ih =>
    simp only [allInstrs, List.countP_append]
    rw [h a (List.mem_cons_self _ _), ih fun x hx => h x (List.mem_cons_of_mem _ hx)]

theorem genMobileStubs_counts {param godoc : List (GoStr × GoStr)} {file : FileSchema}
    {arts : List Artifact} (h : genMobileStubs param godoc file = .ok arts) :
    (allInstrs arts).countP isMemInstr = 0 ∧ (allInstrs arts).countP isLisInstr = 0 := by
  by_cases hp : mapGet param (gs "package_name") = []
  · simp [genMobileStubs, hp] at h
  · by_cases ht : mapGet param (gs "target_package") = []
    · simp [genMobileStubs, hp, ht] at h
    · simp only [genMobileStubs, if_neg hp, if_neg ht] at h
      have hall : ∀ a ∈ arts, a.content.countP isMemInstr = 0 ∧ a.content.countP isLisInstr = 0 := by
        intro a ha
        obtain ⟨srv, _, hsrv⟩ := exMapM_ok_mem h a ha
        exact processService_counts hsrv
      exact ⟨allInstrs_countP_zero fun a ha => (hall a ha).1,
             allInstrs_countP_zero fun a ha => (hall a ha).2⟩

theorem genJSStubs_counts {param : List (GoStr × GoStr)} {file : FileSchema}
    {arts : List Artifact} (h : genJSStubs param file = .ok arts) :
    (allInstrs arts).countP isMemInstr = 0 ∧ (allInstrs arts).countP isLisInstr = 0 := by
  by_cases hp : mapGet param (gs "package_name") = []
  · simp [genJSStubs, hp] at h
  · simp only [genJSStubs, if_neg hp] at h
    have hall : ∀ a ∈ arts, a.content.countP isMemInstr = 0 ∧ a.content.countP isLisInstr = 0 := by
      intro a ha
      obtain ⟨srv, _, hsrv⟩ := exMapM_ok_mem h a ha
      rw [processJsService_eq] at hsrv
      injection hsrv with h2
      subst h2
      simp [List.countP_cons, isMemInstr, isLisInstr]
    exact ⟨allInstrs_countP_zero fun a ha => (hall a ha).1,
           allInstrs_countP_zero fun a ha => (hall a ha).2⟩

theorem genMemRPC_counts {param : List (GoStr × GoStr)} {arts : List Artifact}
    (h : genMemRPC param = .ok arts) :
    (allInstrs arts).countP isMemInstr = 1 ∧ (allInstrs arts).countP isLisInstr = 1 := by
  by_cases hp : mapGet param (gs "package_name") = []
  · simp [genMemRPC, hp] at h
  · simp only [genMemRPC, if_neg hp] at h
    injection h with h2
    subst h2
    simp [allInstrs, List.countP_cons, isMemInstr, isLisInstr]

theorem processFile_counts {param : List (GoStr × GoStr)} {f : FileSchema}
    {arts : List Artifact} (hmem : mapGet param (gs "mem_rpc") = gs "1")
    (h : processFile param f = .ok arts) :
    (allInstrs arts).countP isMemInstr = (if f.generate then 1 else 0) ∧
    (allInstrs arts).countP isLisInstr = (if f.generate then 1 else 0) := by
  by_cases hgen : f.generate = false
  · simp only [processFile, if_pos hgen] at h
    injection h with h2
    subst h2
    simp [hgen, allInstrs]
  · have hgen2 : f.generate = true := by
      cases hg : f.generate
      · exact absurd hg hgen
      · rfl
    simp only [processFile, hgen2, if_neg (by simp : ¬(true = false)), if_pos hmem] at h
    set stubs := if mapGet param (gs "js_stubs") = gs "1" then genJSStubs param f
      else genMobileStubs param (extractComments f.comments) f with hstubs
    cases hs : stubs with
    | error e => rw [hs] at h; cases h
    | ok sarts =>
      rw [hs] at h
      cases hm : genMemRPC param with
      | error e => rw [hm] at h; cases h
      | ok marts =>
        rw [hm] at h
        injection h with h2
        subst h2
        have hsc : (allInstrs sarts).countP isMemInstr = 0 ∧
            (allInstrs sarts).countP isLisInstr = 0 := by
          rw [hstubs] at hs
          by_cases hjs : mapGet param (gs "js_stubs") = gs "1"
          · rw [if_pos hjs] at hs; exact genJSStubs_counts hs
          · rw [if_neg hjs] at hs; exact genMobileStubs_counts hs
        have hmc := genMemRPC_counts hm
        rw [allInstrs_append]
        simp [List.countP_append, hsc.1, hsc.2, hmc.1, hmc.2, hgen2]

/-- Claim C6: with `mem_rpc` enabled, a successful run emits the
in-process transport scaffolding instruction and the
listener-registration scaffolding instruction exactly once per schema
file processed — the counts equal the number of generated files, not the
number of services and not one per run. -/
theorem memrpc_once_per_file :
    ∀ param files out, mapGet param (gs "mem_rpc") = gs "1" →
      falafelRun param files = .ok out →
      (allInstrs out).countP isMemInstr = (files.filter fun f => f.generate).length ∧
      (allInstrs out).countP isLisInstr = (files.filter fun f => f.generate).length := by
  intro param files
  induction files with
  | nil =>
    intro out hmem h
    simp only [falafelRun] at h
    injection h with h2
    subst h2
    simp [allInstrs]
  | cons f rest ih =>
    intro out hmem h
    simp only [falafelRun] at h
    cases hpf : processFile param f with
    | error e => rw [hpf] at h; cases h
    | ok a =>
      rw [hpf] at h
      cases hrun : falafelRun param rest with
      | error e => rw [hrun] at h; cases h
      | ok b =>
        rw [hrun] at h
        injection h with h2
        subst h2
        have hfc := processFile_counts hmem hpf
        have hrc := ih b hmem hrun
        rw [allInstrs_append]
        by_cases hgen : f.generate
        · simp [List.countP_append, hfc.1, hfc.2, hrc.1, hrc.2, hgen, List.filter_cons]
          omega
        · simp [List.countP_append, hfc.1, hfc.2, hrc.1, hrc.2, hgen, List.filter_cons]

/-- Witness for C6: two schema files, one generated and one skipped, in
JS mode with `mem_rpc=1`: each scaffolding instruction appears exactly
once (the number of processed files), not twice and not zero times. -/
theorem memrpc_once_per_file_witness :
    (mapGet (parseParams (gs "package_name=p,js_stubs=1,mem_rpc=1")) (gs "mem_rpc") = gs "1") ∧
    (allInstrs
        [ { name := gs "./memrpc_generated.go"
            content := [Instr.memRpc { toolNm := versionString, pkg := gs "p" }] },
          { name := gs "./listeners_generated.go"
            content := [Instr.listeners
              { toolNm := versionString, pkg := gs "p", listeners := [] }] } ]).countP isMemInstr
      = (([⟨gs "a.proto", true, [], []⟩, ⟨gs "b.proto", false, [], []⟩] :
          List FileSchema).filter fun f => f.generate).length ∧
    (allInstrs
        [ { name := gs "./memrpc_generated.go"
            content := [Instr.memRpc { toolNm := versionString, pkg := gs "p" }] },
          { name := gs "./listeners_generated.go"
            content := [Instr.listeners
              { toolNm := versionString, pkg := gs "p", listeners := [] }] } ]).countP isLisInstr
      = (([⟨gs "a.proto", true, [], []⟩, ⟨gs "b.proto", false, [], []⟩] :
          List FileSchema).filter fun f => f.generate).length := by
  have h := memrpc_once_per_file (parseParams (gs "package_name=p,js_stubs=1,mem_rpc=1"))
    [⟨gs "a.proto", true, [], []⟩, ⟨gs "b.proto", false, [], []⟩] _ (by decide) rfl
  exact ⟨by decide, h.1, h.2⟩


/-! ### Claim C2 -/

/-- Claim C2 (counterexample): the code's registry does not carry the
identifiers actually resolved for the visited services.  With an empty
listeners mapping and `defaultlistener=defLis`, the single service
Lightning resolves to `defLis` (so the spec-side registry is
`["defLis"]`), yet the run's listener-registration instruction carries an
empty registry: `genMemRPC` reads only the configured mapping and never
the default listener. -/
theorem registry_ignores_resolution_counterexample :
    specRegistry [] (gs "defLis") [gs "Lightning"] = .ok [gs "defLis"] ∧
    resolveListener [] (gs "defLis") (toLowerStr (gs "Lightning")) = .ok (gs "defLis") ∧
    (∃ a1 a2 p,
      falafelMain
        (gs "package_name=lndmobile,target_package=github.com/x/lnrpc,defaultlistener=defLis,mem_rpc=1")
        [⟨gs "rpc.proto", true, [],
          [⟨gs "Lightning",
            [⟨gs "GetInfo", gs "GetInfoRequest", gs "github.com/x/lnrpc", false, false⟩]⟩]⟩]
        = .ok [a1, a2, { name := gs "./listeners_generated.go", content := [Instr.listeners p] }]
      ∧ p.listeners = []) ∧
    ([] : List GoStr) ≠ [gs "defLis"] :=
  ⟨rfl, rfl, ⟨_, _, _, rfl, rfl⟩, by decide⟩

/-- Claim C2 (amended): the registry handed to the listener-registration
scaffolding is computed from the configuration alone — the de-duplicated
values of the configured listeners mapping, independent of the schema's
services and of the default listener; for the claim's concrete scenario
(`listeners=lightning=lightningLis`, `mem_rpc=1`, single service
Lightning) it equals `["lightningLis"]`. -/
theorem registry_from_config_values :
    (∀ param, mapGet param (gs "package_name") ≠ [] →
      genMemRPC param = .ok
        [ { name := gs "./memrpc_generated.go"
            content := [Instr.memRpc
              { toolNm := versionString, pkg := mapGet param (gs "package_name") }] },
          { name := gs "./listeners_generated.go"
            content := [Instr.listeners
              { toolNm := versionString, pkg := mapGet param (gs "package_name")
                listeners := buildUsed (mapValues (split (mapGet param (gs "listeners")) ' ')) [] }] } ]) ∧
    (∃ a1 a2 p,
      falafelMain
        (gs "package_name=lndmobile,target_package=github.com/x/lnrpc,listeners=lightning=lightningLis,mem_rpc=1")
        [⟨gs "rpc.proto", true, [],
          [⟨gs "Lightning",
            [⟨gs "GetInfo", gs "GetInfoRequest", gs "github.com/x/lnrpc", false, false⟩]⟩]⟩]
        = .ok [a1, a2, { name := gs "./listeners_generated.go", content := [Instr.listeners p] }]
      ∧ p.listeners = [gs "lightningLis"]) := by
  refine ⟨?_, ⟨_, _, _, rfl, rfl⟩⟩
  intro param hp
  simp [genMemRPC, hp]

/-- Witness for C2's amended general clause at a concrete configuration. -/
theorem registry_from_config_values_witness :
    (mapGet (parseParams (gs "package_name=p,listeners=a=x b=x")) (gs "package_name") ≠ []) ∧
    genMemRPC (parseParams (gs "package_name=p,listeners=a=x b=x")) = .ok
      [ { name := gs "./memrpc_generated.go"
          content := [Instr.memRpc
            { toolNm := versionString
              pkg := mapGet (parseParams (gs "package_name=p,listeners=a=x b=x")) (gs "package_name") }] },
        { name := gs "./listeners_generated.go"
          content := [Instr.listeners
            { toolNm := versionString
              pkg := mapGet (parseParams (gs "package_name=p,listeners=a=x b=x")) (gs "package_name")
              listeners := buildUsed (mapValues (split
                (mapGet (parseParams (gs "package_name=p,listeners=a=x b=x")) (gs "listeners")) ' ')) [] }] } ] :=
  ⟨by decide, registry_from_config_values.1 _ (by decide)⟩
